import Mathlib

/-!
Verification of the wrapper layer of `vision_agent_tools`.

Shallow embedding of:
- `src/vision_agent_tools/models/owlv2.py` (`OWLV2Config`, `Owlv2InferenceData`,
  the `Owlv2` tool with `__run_inference`, `__call__` and `to`),
- `src/vision_agent_tools/tools/depth_estimation.py` (`DepthEstimation.__call__`).

The third-party pieces (the Owlv2 network forward pass, the transformers
processor, cv2, the depth network) are out of scope for the repository and are
abstracted as function parameters ("oracles"): the wrapper's own control flow,
validation, thresholding contract, label mapping, rounding and looping are
embedded faithfully from the Python source.  Machine floats are modelled as
rationals.  Python exceptions are modelled with `Except`.
-/

/-- Compute device, mirroring `vision_agent_tools.shared_types.Device`
(options cpu / gpu / mps). -/
inductive Device where
  | CPU
  | GPU
  | MPS
deriving DecidableEq, Repr

/-- A PIL image is abstracted to a token; the wrapper never inspects pixels. -/
abbrev Img := ℕ

/-- One video frame (a numpy array in the source), abstracted to a token. -/
abbrev Frame := ℕ

/-- Configuration object `OWLV2Config` (owlv2.py lines 11-33).  The runtime
device probe (`torch.cuda.is_available()` …) is not embeddable; `CPU` stands in
as the default and all theorems quantify over the device. -/
structure OWLV2Config where
  model_name : String := "google/owlv2-large-patch14-ensemble"
  processor_name : String := "google/owlv2-large-patch14-ensemble"
  confidence : ℚ := 1 / 10
  device : Device := Device.CPU
deriving DecidableEq, Repr

/-- One decoded detection as handed back by the third-party
`post_process_object_detection` call: a box (`box.tolist()`, four floats),
a score and a class-label index into the prompt list. -/
structure RawDet where
  box : List ℚ
  score : ℚ
  label : ℕ
deriving DecidableEq, Repr

/-- Result record `Owlv2InferenceData` (owlv2.py lines 36-47). -/
structure Owlv2InferenceData where
  label : String
  score : ℚ
  bbox : List ℚ
deriving DecidableEq, Repr

/-- The exceptions the wrapper can raise: `ValueError` with a message
(owlv2.py lines 135, 137) and Python's `IndexError` from a failed list
indexing (`texts[i][label.item()]`, owlv2.py line 87). -/
inductive Owlv2Error where
  | valueError (msg : String)
  | indexError
deriving DecidableEq, Repr

/-- The third-party thresholding step
`self._processor.post_process_object_detection(outputs, threshold, …)`
(owlv2.py lines 72-74).  Per the library contract stated by the spec it keeps
exactly the detections whose score exceeds the threshold. -/
def postProcessObjectDetection (raw : List RawDet) (threshold : ℚ) : List RawDet :=
  raw.filter fun d => decide (threshold < d.score)

/-- Rounding to two decimal places, `round(i, 2)` (owlv2.py line 84). -/
def round2 (x : ℚ) : ℚ := ((round (x * 100) : ℤ) : ℚ) / 100

/-- The state of one `Owlv2` tool instance: its immutable `model_config` and
the device the underlying network `self._model` currently lives on (initially
`model_config.device`, owlv2.py line 106, mutated only by `Owlv2.to`). -/
structure Owlv2 where
  model_config : OWLV2Config
  modelDevice : Device
deriving DecidableEq, Repr

/-- The explicit transfer operation `Owlv2.to` (owlv2.py lines 161-162):
`self._model.to(device=device.value)` — it touches only the network. -/
def Owlv2.to (s : Owlv2) (device : Device) : Owlv2 :=
  { s with modelDevice := device }

/-- The device used inside `__run_inference` both for input placement
(`inputs…to(self.model_config.device)`, lines 62-64) and for the autocast
context (`torch.autocast(self.model_config.device)`, line 66). -/
def Owlv2.inferenceDevice (s : Owlv2) : Device := s.model_config.device

/-- Oracle for the third-party model: given the device the inputs were placed
on, the (converted) image and the nested prompt list handed to the processor,
it yields the raw decoded detections that the thresholding step then filters. -/
abbrev ModelOut := Device → Img → List (List String) → List RawDet

/-- Building one `Owlv2InferenceData` record from a raw detection
(owlv2.py lines 83-89): `texts[i][label.item()]` with `i = 0`, the score, and
the box with every coordinate rounded to two decimals.  A label index outside
the prompt list makes the Python indexing raise `IndexError`. -/
def mkRecord (texts : List (List String)) (d : RawDet) :
    Except Owlv2Error Owlv2InferenceData :=
  match texts[0]? with
  | none => .error .indexError
  | some prompts =>
      match prompts[d.label]? with
      | none => .error .indexError
      | some lbl => .ok { label := lbl, score := d.score, bbox := d.box.map round2 }

/-- Sequential effectful map: the Python `for … : inferences.append(…)` loop,
stopping at the first raised exception. -/
def exceptMapM {α β ε : Type} (f : α → Except ε β) : List α → Except ε (List β)
  | [] => .ok []
  | x :: xs =>
      match f x with
      | .error e => .error e
      | .ok y =>
          match exceptMapM f xs with
          | .error e => .error e
          | .ok ys => .ok (y :: ys)

/-- `Owlv2.__run_inference` (owlv2.py lines 60-91): place inputs on
`model_config.device`, run the model, threshold the decoded detections, then
build one record per surviving detection. -/
def Owlv2.runInference (s : Owlv2) (modelOut : ModelOut) (image : Img)
    (texts : List (List String)) (confidence : ℚ) :
    Except Owlv2Error (List Owlv2InferenceData) :=
  let raw := modelOut s.inferenceDevice image texts
  exceptMapM (mkRecord texts) (postProcessObjectDetection raw confidence)

/-- `Owlv2.__call__` (owlv2.py lines 109-159): wraps the prompts as
`texts = [prompts]`, validates that exactly one of image / video is given,
then runs inference once on the image or once per video frame in order.
`convertRGB` stands for `PIL.Image.convert("RGB")` and `fromarray` for
`PIL.Image.fromarray`. -/
def Owlv2.call (s : Owlv2) (modelOut : ModelOut) (convertRGB : Img → Img)
    (fromarray : Frame → Img) (prompts : List String)
    (image : Option Img) (video : Option (List Frame)) :
    Except Owlv2Error (List (List Owlv2InferenceData)) :=
  let texts := [prompts]
  if image.isNone && video.isNone then
    .error (.valueError "Either image or video must be provided.")
  else if image.isSome && video.isSome then
    .error (.valueError "Only one of image or video can be provided.")
  else
    match image, video with
    | some img, _ =>
        (s.runInference modelOut (convertRGB img) texts
            s.model_config.confidence).map (fun r => [r])
    | none, some frames =>
        exceptMapM
          (fun frame =>
            s.runInference modelOut (convertRGB (fromarray frame)) texts
              s.model_config.confidence)
          frames
    | none, none => .error (.valueError "Either image or video must be provided.")

/-- Whether an outcome is the wrapper's input-validation error (`ValueError`),
as opposed to normal return or any other exception. -/
def isValidationError {α : Type} : Except Owlv2Error α → Bool
  | .error (.valueError _) => true
  | _ => false

/-- An in-memory `PIL.Image.Image` argument of the depth tool. -/
abbrev PILImg := ℕ

/-- A cv2 BGR array. -/
abbrev CVImg := ℕ

/-- The dense depth array returned by `infer_image`. -/
abbrev RawDepth := List (List ℚ)

/-- The dynamic type of the single argument of `DepthEstimation.__call__`:
a filesystem path (`str`), an in-memory image (`PIL.Image.Image`), or a value
of any other Python type. -/
inductive DepthInput where
  | strPath (path : String)
  | pilImage (img : PILImg)
  | otherValue (v : ℕ)
deriving DecidableEq, Repr

/-- Result wrapper `DepthMap` (depth_estimation.py lines 19-20). -/
structure DepthMap where
  map : RawDepth
deriving DecidableEq, Repr

/-- `DepthEstimation.__call__` (depth_estimation.py lines 67-86): a path is
loaded with `cv2.imread`, an in-memory image is converted RGB→BGR, anything
else raises `ValueError`; the model then produces the depth map.  `imread`,
`rgbToBgr` and `inferImage` abstract the cv2 / depth-network calls. -/
def DepthEstimation.call (imread : String → CVImg) (rgbToBgr : PILImg → CVImg)
    (inferImage : CVImg → RawDepth) (image : DepthInput) :
    Except String DepthMap :=
  match image with
  | .strPath path => .ok { map := inferImage (imread path) }
  | .pilImage img => .ok { map := inferImage (rgbToBgr img) }
  | .otherValue _ => .error "Invalid image type. Expected str or PIL.Image.Image."

/-- Modelled from the spec: the intersection-over-union overlap ratio between
two `[xmin, ymin, xmax, ymax]` boxes, used by the non-max-suppression
post-filter of the detection tool.  The repository code implementing NMS (the
phrase-grounding wrapper exercised by
`src/tests/models/florence2_ft/test_caption_to_phrase_grounding.py`) is not
under `src/`; only the spec's description is available. -/
def iouList (a b : List ℚ) : ℚ :=
  let interW := max 0 (min (a.getD 2 0) (b.getD 2 0) - max (a.getD 0 0) (b.getD 0 0))
  let interH := max 0 (min (a.getD 3 0) (b.getD 3 0) - max (a.getD 1 0) (b.getD 1 0))
  let inter := interW * interH
  let areaA := max 0 (a.getD 2 0 - a.getD 0 0) * max 0 (a.getD 3 0 - a.getD 1 0)
  let areaB := max 0 (b.getD 2 0 - b.getD 0 0) * max 0 (b.getD 3 0 - b.getD 1 0)
  inter / (areaA + areaB - inter)

/-- Ordering by descending score, used to sort detections before greedy NMS. -/
def scoreGE (a b : Owlv2InferenceData) : Prop := b.score ≤ a.score

instance : DecidableRel scoreGE := fun a b =>
  inferInstanceAs (Decidable (b.score ≤ a.score))

instance : IsTotal Owlv2InferenceData scoreGE := ⟨fun a b => le_total b.score a.score⟩

instance : IsTrans Owlv2InferenceData scoreGE :=
  ⟨fun _ _ _ h1 h2 => le_trans h2 h1⟩

/-- Modelled from the spec: detection `e` is suppressed by the kept detection
`d` when it has the same label and its IoU with `d` exceeds the threshold. -/
def suppressedBy (t : ℚ) (d e : Owlv2InferenceData) : Prop :=
  e.label = d.label ∧ t < iouList d.bbox e.bbox

instance (t : ℚ) (d e : Owlv2InferenceData) : Decidable (suppressedBy t d e) :=
  inferInstanceAs (Decidable (_ ∧ _))

/-- Modelled from the spec: greedy non-max suppression over a score-sorted
list — keep the best remaining detection, drop every later same-label
detection whose IoU with it exceeds the threshold, recurse. -/
def nmsKeep (t : ℚ) : List Owlv2InferenceData → List Owlv2InferenceData
  | [] => []
  | d :: rest =>
      d :: nmsKeep t (rest.filter fun e => !decide (suppressedBy t d e))
termination_by l => l.length
decreasing_by
  simp only [List.length_cons]
  exact Nat.lt_succ_of_le (List.length_filter_le _ _)

/-- Modelled from the spec: the optional `nms_threshold` post-filter of the
detection tool — when no threshold is supplied the detections pass through
unchanged; when one is supplied, greedy NMS runs on the detections sorted by
descending score. -/
def applyNms (nms_threshold : Option ℚ) (dets : List Owlv2InferenceData) :
    List Owlv2InferenceData :=
  match nms_threshold with
  | none => dets
  | some t => nmsKeep t (List.insertionSort scoreGE dets)

/-- Modelled from the spec and the florence2 test
`test_caption_to_phrase_grounding_cereal`: the phrase-grounding wrapper (not
under `src/`) returns, per image, one record holding the bbox list and the
label list of that image's detections. -/
structure GroundingResult where
  bboxes : List (List ℚ)
  labels : List String
deriving DecidableEq, Repr

/-- Modelled from the spec: the per-image response of the phrase-grounding
wrapper, built from the image's detection records. -/
def groundingResponse (dets : List Owlv2InferenceData) : List GroundingResult :=
  [{ bboxes := dets.map (fun d => d.bbox), labels := dets.map (fun d => d.label) }]

/-- One-step unfolding of `exceptMapM` on a cons cell. -/
theorem exceptMapM_cons {α β ε : Type} (f : α → Except ε β) (x : α) (xs : List α) :
    exceptMapM f (x :: xs) =
      match f x with
      | .error e => .error e
      | .ok y =>
          match exceptMapM f xs with
          | .error e => .error e
          | .ok ys => .ok (y :: ys) := rfl

/-- A successful sequential map produces one output per input. -/
theorem exceptMapM_ok_length {α β ε : Type} {f : α → Except ε β} :
    ∀ {l : List α} {out : List β}, exceptMapM f l = .ok out → out.length = l.length := by
  intro l
  induction l with
  | nil =>
      intro out h
      simp only [exceptMapM] at h
      cases h
      rfl
  | cons x xs ih =>
      intro out h
      cases hfx : f x with
      | error e => simp [exceptMapM_cons, hfx] at h
      | ok y =>
          cases hrec : exceptMapM f xs with
          | error e => simp [exceptMapM_cons, hfx, hrec] at h
          | ok ys =>
              simp only [exceptMapM_cons, hfx, hrec] at h
              cases h
              simp [ih hrec]

/-- A successful sequential map applies `f` elementwise, in order. -/
theorem exceptMapM_ok_get {α β ε : Type} {f : α → Except ε β} :
    ∀ {l : List α} {out : List β}, exceptMapM f l = .ok out →
      ∀ (k : ℕ) (hk : k < l.length) (hk2 : k < out.length),
        f (l.get ⟨k, hk⟩) = .ok (out.get ⟨k, hk2⟩) := by
  intro l
  induction l with
  | nil =>
      intro out h k hk hk2
      exact absurd hk (Nat.not_lt_zero k)
  | cons x xs ih =>
      intro out h k hk hk2
      cases hfx : f x with
      | error e => simp [exceptMapM_cons, hfx] at h
      | ok y =>
          cases hrec : exceptMapM f xs with
          | error e => simp [exceptMapM_cons, hfx, hrec] at h
          | ok ys =>
              simp only [exceptMapM_cons, hfx, hrec] at h
              cases h
              cases k with
              | zero => simpa using hfx
              | succ k =>
                  exact ih hrec k (Nat.lt_of_succ_lt_succ hk)
                    (Nat.lt_of_succ_lt_succ hk2)

/-- Every output of a successful sequential map comes from some input. -/
theorem exceptMapM_ok_mem {α β ε : Type} {f : α → Except ε β} :
    ∀ {l : List α} {out : List β}, exceptMapM f l = .ok out →
      ∀ y ∈ out, ∃ x ∈ l, f x = .ok y := by
  intro l
  induction l with
  | nil =>
      intro out h y hy
      simp only [exceptMapM] at h
      cases h
      cases hy
  | cons x xs ih =>
      intro out h y hy
      cases hfx : f x with
      | error e => simp [exceptMapM_cons, hfx] at h
      | ok z =>
          cases hrec : exceptMapM f xs with
          | error e => simp [exceptMapM_cons, hfx, hrec] at h
          | ok ys =>
              simp only [exceptMapM_cons, hfx, hrec] at h
              cases h
              rcases List.mem_cons.mp hy with h1 | h1
              · exact ⟨x, List.mem_cons_self x xs, h1 ▸ hfx⟩
              · rcases ih hrec y h1 with ⟨x', hx', hfy⟩
                exact ⟨x', List.mem_cons_of_mem x hx', hfy⟩

/-- The sequential map succeeds when `f` succeeds on every element. -/
theorem exceptMapM_isOk_of_forall {α β ε : Type} {f : α → Except ε β} :
    ∀ {l : List α}, (∀ x ∈ l, ∃ y, f x = .ok y) →
      ∃ out, exceptMapM f l = .ok out := by
  intro l
  induction l with
  | nil => intro _; exact ⟨[], rfl⟩
  | cons x xs ih =>
      intro hall
      rcases hall x (List.mem_cons_self x xs) with ⟨y, hy⟩
      rcases ih (fun z hz => hall z (List.mem_cons_of_mem x hz)) with ⟨ys, hys⟩
      exact ⟨y :: ys, by simp [exceptMapM_cons, hy, hys]⟩

/-- When `f` can only succeed or raise the one error `e0`, so does the map. -/
theorem exceptMapM_cases {α β ε : Type} {f : α → Except ε β} {e0 : ε}
    (hf : ∀ x, (∃ y, f x = .ok y) ∨ f x = .error e0) :
    ∀ l : List α, (∃ out, exceptMapM f l = .ok out) ∨ exceptMapM f l = .error e0 := by
  intro l
  induction l with
  | nil => exact Or.inl ⟨[], rfl⟩
  | cons x xs ih =>
      rcases hf x with ⟨y, hy⟩ | hx
      · rcases ih with ⟨ys, hys⟩ | hxs
        · exact Or.inl ⟨y :: ys, by simp [exceptMapM_cons, hy, hys]⟩
        · exact Or.inr (by simp [exceptMapM_cons, hy, hxs])
      · exact Or.inr (by simp [exceptMapM_cons, hx])

/-- Record building either succeeds or raises exactly `IndexError`. -/
theorem mkRecord_cases (texts : List (List String)) (d : RawDet) :
    (∃ y, mkRecord texts d = .ok y) ∨ mkRecord texts d = .error .indexError := by
  cases h0 : texts[0]? with
  | none => exact Or.inr (by simp [mkRecord, h0])
  | some prompts =>
      cases hl : prompts[d.label]? with
      | none => exact Or.inr (by simp [mkRecord, h0, hl])
      | some lbl =>
          exact Or.inl ⟨{ label := lbl, score := d.score, bbox := d.box.map round2 },
            by simp [mkRecord, h0, hl]⟩

/-- With the call's `texts = [prompts]`, record building succeeds exactly when
the decoded label index is within the prompt list. -/
theorem mkRecord_singleton_ok (prompts : List String) (d : RawDet) :
    (∃ y, mkRecord [prompts] d = .ok y) ↔ d.label < prompts.length := by
  cases hl : prompts[d.label]? with
  | none =>
      have hge := List.getElem?_eq_none_iff.mp hl
      simp [mkRecord, hl, Nat.not_lt_of_le hge]
  | some lbl =>
      have hlt := (List.getElem?_eq_some_iff.mp hl).1
      simp [mkRecord, hl, hlt]

/-- Inversion of a successful record build with `texts = [prompts]`. -/
theorem mkRecord_singleton_ok_elim {prompts : List String} {d : RawDet}
    {rec : Owlv2InferenceData} (h : mkRecord [prompts] d = .ok rec) :
    prompts[d.label]? = some rec.label ∧ rec.score = d.score ∧
      rec.bbox = d.box.map round2 := by
  cases hl : prompts[d.label]? with
  | none => simp [mkRecord, hl] at h
  | some lbl =>
      simp only [mkRecord, List.getElem?_cons_zero, hl, Except.ok.injEq] at h
      subst h
      exact ⟨rfl, rfl, rfl⟩

/-- Unfolding `Owlv2.__call__` with neither input. -/
theorem Owlv2.call_none_none (s : Owlv2) (mo : ModelOut) (cv : Img → Img)
    (fa : Frame → Img) (prompts : List String) :
    Owlv2.call s mo cv fa prompts none none =
      .error (.valueError "Either image or video must be provided.") := rfl

/-- Unfolding `Owlv2.__call__` with both inputs. -/
theorem Owlv2.call_some_some (s : Owlv2) (mo : ModelOut) (cv : Img → Img)
    (fa : Frame → Img) (prompts : List String) (img : Img) (frames : List Frame) :
    Owlv2.call s mo cv fa prompts (some img) (some frames) =
      .error (.valueError "Only one of image or video can be provided.") := rfl

/-- Unfolding `Owlv2.__call__` on a single image. -/
theorem Owlv2.call_image (s : Owlv2) (mo : ModelOut) (cv : Img → Img)
    (fa : Frame → Img) (prompts : List String) (img : Img) :
    Owlv2.call s mo cv fa prompts (some img) none =
      (Owlv2.runInference s mo (cv img) [prompts]
        s.model_config.confidence).map (fun r => [r]) := rfl

/-- Unfolding `Owlv2.__call__` on a video: the frame loop. -/
theorem Owlv2.call_video (s : Owlv2) (mo : ModelOut) (cv : Img → Img)
    (fa : Frame → Img) (prompts : List String) (frames : List Frame) :
    Owlv2.call s mo cv fa prompts none (some frames) =
      exceptMapM
        (fun frame => Owlv2.runInference s mo (cv (fa frame)) [prompts]
          s.model_config.confidence) frames := rfl

/-- `__run_inference` either returns records or raises `IndexError`. -/
theorem runInference_cases (s : Owlv2) (mo : ModelOut) (img : Img)
    (texts : List (List String)) (conf : ℚ) :
    (∃ out, Owlv2.runInference s mo img texts conf = .ok out) ∨
      Owlv2.runInference s mo img texts conf = .error .indexError :=
  exceptMapM_cases (fun d => mkRecord_cases texts d) _

/-- Every record returned by `__run_inference` stems from a raw detection that
survived the confidence thresholding. -/
theorem runInference_ok_mem {s : Owlv2} {mo : ModelOut} {img : Img}
    {texts : List (List String)} {conf : ℚ} {out : List Owlv2InferenceData}
    (h : Owlv2.runInference s mo img texts conf = .ok out) :
    ∀ rec ∈ out,
      ∃ d ∈ postProcessObjectDetection (mo s.inferenceDevice img texts) conf,
        mkRecord texts d = .ok rec :=
  fun rec hrec => exceptMapM_ok_mem h rec hrec

/-- Raw detections surviving the threshold filter score strictly above it. -/
theorem postProcess_mem_score {raw : List RawDet} {t : ℚ} {d : RawDet}
    (hd : d ∈ postProcessObjectDetection raw t) : t < d.score := by
  have h := List.mem_filter.mp hd
  simpa using h.2

/-- Every per-frame list in a successful call is a `__run_inference` result on
one converted image, at the configured confidence. -/
theorem call_ok_frames {s : Owlv2} {mo : ModelOut} {cv : Img → Img}
    {fa : Frame → Img} {prompts : List String} {io : Option Img}
    {vo : Option (List Frame)} {out : List (List Owlv2InferenceData)}
    (h : Owlv2.call s mo cv fa prompts io vo = .ok out) :
    ∀ fr ∈ out, ∃ img, Owlv2.runInference s mo img [prompts]
      s.model_config.confidence = .ok fr := by
  cases io with
  | none =>
      cases vo with
      | none => rw [Owlv2.call_none_none] at h; cases h
      | some frames =>
          rw [Owlv2.call_video] at h
          intro fr hfr
          rcases exceptMapM_ok_mem h fr hfr with ⟨frame, _, hf⟩
          exact ⟨cv (fa frame), hf⟩
  | some img =>
      cases vo with
      | some frames => rw [Owlv2.call_some_some] at h; cases h
      | none =>
          rw [Owlv2.call_image] at h
          cases hri : Owlv2.runInference s mo (cv img) [prompts]
              s.model_config.confidence with
          | error e => rw [hri] at h; cases h
          | ok r =>
              rw [hri] at h
              cases h
              intro fr hfr
              rcases List.mem_singleton.mp hfr with rfl
              exact ⟨cv img, hri⟩

/-- C1: calling the detection tool with both image and video, or with neither,
raises the input-validation `ValueError`; with exactly one of them supplied no
validation error is raised (the call returns normally or, at worst, raises the
distinct `IndexError` of the label-mapping step). -/
theorem owlv2_call_input_validation (s : Owlv2) (mo : ModelOut) (cv : Img → Img)
    (fa : Frame → Img) (prompts : List String) (img : Img) (frames : List Frame) :
    Owlv2.call s mo cv fa prompts none none =
      .error (.valueError "Either image or video must be provided.") ∧
    Owlv2.call s mo cv fa prompts (some img) (some frames) =
      .error (.valueError "Only one of image or video can be provided.") ∧
    isValidationError (Owlv2.call s mo cv fa prompts (some img) none) = false ∧
    isValidationError (Owlv2.call s mo cv fa prompts none (some frames)) = false := by
  refine ⟨rfl, rfl, ?_, ?_⟩
  · rw [Owlv2.call_image]
    rcases runInference_cases s mo (cv img) [prompts] s.model_config.confidence with
      ⟨out, hout⟩ | herr
    · rw [hout]; rfl
    · rw [herr]; rfl
  · rw [Owlv2.call_video]
    rcases exceptMapM_cases
        (fun frame => runInference_cases s mo (cv (fa frame)) [prompts]
          s.model_config.confidence) frames with
      ⟨out, hout⟩ | herr
    · rw [hout]; rfl
    · rw [herr]; rfl

/-- C5: the depth estimation tool accepts a filesystem path or an in-memory
image and returns a depth map for either; any argument of any other type
raises the input-validation `ValueError`. -/
theorem depth_input_validation (imread : String → CVImg)
    (rgbToBgr : PILImg → CVImg) (inferImage : CVImg → RawDepth)
    (path : String) (img : PILImg) (v : ℕ) :
    DepthEstimation.call imread rgbToBgr inferImage (.strPath path) =
      .ok { map := inferImage (imread path) } ∧
    DepthEstimation.call imread rgbToBgr inferImage (.pilImage img) =
      .ok { map := inferImage (rgbToBgr img) } ∧
    DepthEstimation.call imread rgbToBgr inferImage (.otherValue v) =
      .error "Invalid image type. Expected str or PIL.Image.Image." :=
  ⟨rfl, rfl, rfl⟩

/-- A concrete tool state with the default configuration, used by witnesses. -/
def owlv2Default : Owlv2 := { model_config := {}, modelDevice := Device.CPU }

/-- An oracle under which the model detects nothing, used by witnesses. -/
def oracleNone : ModelOut := fun _ _ _ => []

/-- A concrete tool state whose confidence threshold is 0, used by witnesses. -/
def owlv2Zero : Owlv2 :=
  { model_config := { confidence := 0 }, modelDevice := Device.CPU }

/-- An oracle reporting a single detection of class index 0 with score 1,
used by witnesses. -/
def oracleOne : ModelOut :=
  fun _ _ _ => [{ box := [1, 2, 3, 4], score := 1, label := 0 }]

/-- C2: a successful call on a video of N frames returns exactly N per-frame
result lists, in frame order; the k-th list is the inference result of the
k-th frame alone, so frames are processed independently with no cross-frame
state. -/
theorem owlv2_video_framewise {s : Owlv2} {mo : ModelOut} {cv : Img → Img}
    {fa : Frame → Img} {prompts : List String} {frames : List Frame}
    {out : List (List Owlv2InferenceData)}
    (h : Owlv2.call s mo cv fa prompts none (some frames) = .ok out) :
    out.length = frames.length ∧
    ∀ (k : ℕ) (hk : k < frames.length) (hk2 : k < out.length),
      Owlv2.runInference s mo (cv (fa (frames.get ⟨k, hk⟩))) [prompts]
        s.model_config.confidence = .ok (out.get ⟨k, hk2⟩) := by
  rw [Owlv2.call_video] at h
  exact ⟨exceptMapM_ok_length h, fun k hk hk2 => exceptMapM_ok_get h k hk hk2⟩

/-- Witness for C2 at a concrete two-frame video with an empty-detection
oracle: the output has one result list per frame. -/
theorem owlv2_video_framewise_witness :
    ([([] : List Owlv2InferenceData), []]).length = ([0, 1] : List Frame).length :=
  (@owlv2_video_framewise owlv2Default oracleNone id id ["shark"] [0, 1]
    [[], []] rfl).1

/-- C4: every detection record in every frame of a successful call has a score
at least the configured confidence threshold. -/
theorem owlv2_scores_ge_confidence {s : Owlv2} {mo : ModelOut} {cv : Img → Img}
    {fa : Frame → Img} {prompts : List String} {io : Option Img}
    {vo : Option (List Frame)} {out : List (List Owlv2InferenceData)}
    (h : Owlv2.call s mo cv fa prompts io vo = .ok out) :
    ∀ fr ∈ out, ∀ rec ∈ fr, s.model_config.confidence ≤ rec.score := by
  intro fr hfr rec hrec
  rcases call_ok_frames h fr hfr with ⟨img, hri⟩
  rcases runInference_ok_mem hri rec hrec with ⟨d, hd, hmk⟩
  rcases mkRecord_singleton_ok_elim hmk with ⟨-, hsc, -⟩
  exact le_of_lt (by rw [hsc]; exact postProcess_mem_score hd)

/-- Witness for C4 at a concrete call with one detection of score 1 against a
confidence threshold of 0. -/
theorem owlv2_scores_ge_confidence_witness :
    owlv2Zero.model_config.confidence ≤ (1 : ℚ) := by
  have h := @owlv2_scores_ge_confidence owlv2Zero oracleOne id id ["cat"]
    (some 0) none
    [[{ label := "cat", score := 1, bbox := [1, 2, 3, 4].map round2 }]]
    (by rfl)
  exact h [{ label := "cat", score := 1, bbox := [1, 2, 3, 4].map round2 }]
    (by simp) { label := "cat", score := 1, bbox := [1, 2, 3, 4].map round2 }
    (by simp)

/-- C9: the explicit transfer operation moves only the underlying network.
The configuration — hence the device every later call uses for input placement
and the autocast context — is unchanged, and call results are unaffected. -/
theorem owlv2_to_moves_only_model (s : Owlv2) (d : Device) (mo : ModelOut)
    (cv : Img → Img) (fa : Frame → Img) (prompts : List String)
    (io : Option Img) (vo : Option (List Frame)) :
    (s.to d).model_config = s.model_config ∧
    (s.to d).modelDevice = d ∧
    (s.to d).inferenceDevice = s.model_config.device ∧
    Owlv2.call (s.to d) mo cv fa prompts io vo =
      Owlv2.call s mo cv fa prompts io vo :=
  ⟨rfl, rfl, rfl, rfl⟩

/-- A successful sequential map means `f` succeeded on every input element. -/
theorem exceptMapM_ok_forall {α β ε : Type} {f : α → Except ε β} :
    ∀ {l : List α} {out : List β}, exceptMapM f l = .ok out →
      ∀ x ∈ l, ∃ y, f x = .ok y := by
  intro l
  induction l with
  | nil =>
      intro out _ x hx
      cases hx
  | cons a xs ih =>
      intro out h x hx
      cases hfa : f a with
      | error e => simp [exceptMapM_cons, hfa] at h
      | ok y =>
          cases hrec : exceptMapM f xs with
          | error e => simp [exceptMapM_cons, hfa, hrec] at h
          | ok ys =>
              rcases List.mem_cons.mp hx with rfl | hx'
              · exact ⟨y, hfa⟩
              · exact ih hrec x hx'

/-- The record produced from `oracleOne`'s detection, used by witnesses. -/
def recOne : Owlv2InferenceData :=
  { label := "cat", score := 1, bbox := [1, 2, 3, 4].map round2 }

/-- C6: every per-frame result list of a successful call is produced by
`__run_inference` on that frame's image, and every record in it comes from a
raw detection in the model's thresholded output on that very image: the
record's label is the source prompt text at that detection's decoded label
index, its bbox is that detection's raw box with each coordinate rounded to
two decimal places (in particular every coordinate is an integer multiple of
1/100), and its score is that detection's score. -/
theorem owlv2_label_bbox_round {s : Owlv2} {mo : ModelOut} {cv : Img → Img}
    {fa : Frame → Img} {prompts : List String} {io : Option Img}
    {vo : Option (List Frame)} {out : List (List Owlv2InferenceData)}
    (h : Owlv2.call s mo cv fa prompts io vo = .ok out) :
    ∀ fr ∈ out, ∃ img,
      Owlv2.runInference s mo img [prompts] s.model_config.confidence =
        .ok fr ∧
      ∀ rec ∈ fr,
        ∃ d ∈ postProcessObjectDetection (mo s.inferenceDevice img [prompts])
            s.model_config.confidence,
          prompts[d.label]? = some rec.label ∧
          rec.bbox = d.box.map round2 ∧ rec.score = d.score ∧
          ∀ x ∈ rec.bbox, ∃ n : ℤ, x = (n : ℚ) / 100 := by
  intro fr hfr
  rcases call_ok_frames h fr hfr with ⟨img, hri⟩
  refine ⟨img, hri, ?_⟩
  intro rec hrec
  rcases runInference_ok_mem hri rec hrec with ⟨d, hd, hmk⟩
  rcases mkRecord_singleton_ok_elim hmk with ⟨h1, h2, h3⟩
  refine ⟨d, hd, h1, h3, h2, ?_⟩
  intro x hx
  rw [h3] at hx
  rcases List.mem_map.mp hx with ⟨b, -, rfl⟩
  exact ⟨round (b * 100), rfl⟩

/-- Witness for C6 at a concrete call with one detection of label index 0. -/
theorem owlv2_label_bbox_round_witness :
    ∃ img,
      Owlv2.runInference owlv2Zero oracleOne img [["cat"]]
        owlv2Zero.model_config.confidence = .ok [recOne] ∧
      ∀ rec ∈ [recOne],
        ∃ d ∈ postProcessObjectDetection
            (oracleOne owlv2Zero.inferenceDevice img [["cat"]])
            owlv2Zero.model_config.confidence,
          (["cat"])[d.label]? = some rec.label ∧
          rec.bbox = d.box.map round2 ∧ rec.score = d.score ∧
          ∀ x ∈ rec.bbox, ∃ n : ℤ, x = (n : ℚ) / 100 :=
  @owlv2_label_bbox_round owlv2Zero oracleOne id id ["cat"] (some 0) none
    [[recOne]] (by rfl) [recOne] (by simp)

/-- The sequential map returns a plain map when `f` succeeds elementwise. -/
theorem exceptMapM_congr_ok {α β ε : Type} {f : α → Except ε β} {g : α → β} :
    ∀ {l : List α}, (∀ x ∈ l, f x = .ok (g x)) →
      exceptMapM f l = .ok (l.map g) := by
  intro l
  induction l with
  | nil => intro _; rfl
  | cons x xs ih =>
      intro hall
      simp [exceptMapM_cons, hall x (List.mem_cons_self x xs),
        ih (fun z hz => hall z (List.mem_cons_of_mem x hz))]

/-- C7: when no detection survives the threshold, the call returns an empty
result list for the image — and, on a video, an empty result list in the
position of every frame — raising no error; in the phrase-grounding response
format this renders as one record with empty bbox and label lists. -/
theorem owlv2_empty_detections {s : Owlv2} {mo : ModelOut} {cv : Img → Img}
    {fa : Frame → Img} {prompts : List String} {img : Img}
    {frames : List Frame}
    (himg : postProcessObjectDetection (mo s.inferenceDevice (cv img) [prompts])
        s.model_config.confidence = [])
    (hframes : ∀ frame ∈ frames,
      postProcessObjectDetection
          (mo s.inferenceDevice (cv (fa frame)) [prompts])
        s.model_config.confidence = []) :
    Owlv2.call s mo cv fa prompts (some img) none = .ok [[]] ∧
    Owlv2.call s mo cv fa prompts none (some frames) =
      .ok (frames.map fun _ => []) ∧
    groundingResponse [] = [{ bboxes := [], labels := [] }] := by
  refine ⟨?_, ?_, rfl⟩
  · rw [Owlv2.call_image]
    show (exceptMapM (mkRecord [prompts])
        (postProcessObjectDetection (mo s.inferenceDevice (cv img) [prompts])
          s.model_config.confidence)).map (fun r => [r]) = .ok [[]]
    rw [himg]
    rfl
  · rw [Owlv2.call_video]
    refine exceptMapM_congr_ok (fun frame hf => ?_)
    show exceptMapM (mkRecord [prompts])
        (postProcessObjectDetection
          (mo s.inferenceDevice (cv (fa frame)) [prompts])
          s.model_config.confidence) = .ok []
    rw [hframes frame hf]
    rfl

/-- Witness for C7: a prompt with no matching object (empty-detection oracle)
yields the empty per-image result, one empty per-frame list for each of two
video frames, and the empty grounding record. -/
theorem owlv2_empty_detections_witness :
    Owlv2.call owlv2Default oracleNone id id ["screw"] (some 0) none =
      .ok [[]] ∧
    Owlv2.call owlv2Default oracleNone id id ["screw"] none (some [0, 1]) =
      .ok ([0, 1].map fun _ => []) ∧
    groundingResponse [] = [{ bboxes := [], labels := [] }] :=
  @owlv2_empty_detections owlv2Default oracleNone id id ["screw"] 0 [0, 1]
    (by rfl) (fun _ _ => rfl)

/-- C8: the wrapper layer is deterministic — two invocations with identical
inputs and configuration, whose underlying model and image-conversion
functions agree pointwise, return identical output. -/
theorem owlv2_wrapper_deterministic (s : Owlv2) (mo1 mo2 : ModelOut)
    (cv1 cv2 : Img → Img) (fa1 fa2 : Frame → Img) (prompts : List String)
    (io : Option Img) (vo : Option (List Frame))
    (hmo : ∀ d i t, mo1 d i t = mo2 d i t) (hcv : ∀ i, cv1 i = cv2 i)
    (hfa : ∀ f, fa1 f = fa2 f) :
    Owlv2.call s mo1 cv1 fa1 prompts io vo =
      Owlv2.call s mo2 cv2 fa2 prompts io vo := by
  have h1 : mo1 = mo2 := funext fun d => funext fun i => funext fun t => hmo d i t
  have h2 : cv1 = cv2 := funext hcv
  have h3 : fa1 = fa2 := funext hfa
  rw [h1, h2, h3]

/-- A second empty-detection oracle, syntactically different from
`oracleNone`, used by the determinism witness. -/
def oracleNoneAlt : ModelOut := fun _ _ _ => [] ++ []

/-- Witness for C8: two runs with pointwise-equal oracles and converters give
the same output. -/
theorem owlv2_wrapper_deterministic_witness :
    Owlv2.call owlv2Default oracleNone id id ["x"] (some 0) none =
      Owlv2.call owlv2Default oracleNoneAlt (fun i => i) (fun f => f) ["x"]
        (some 0) none :=
  owlv2_wrapper_deterministic owlv2Default oracleNone oracleNoneAlt id
    (fun i => i) id (fun f => f) ["x"] (some 0) none
    (fun _ _ _ => rfl) (fun _ => rfl) (fun _ => rfl)

/-- C10: the label-mapping step indexes the prompt list without a guard — the
inference step returns records exactly when every decoded label index is
strictly below the number of prompts, and any decoded index at or beyond the
number of prompts makes it raise `IndexError` instead of returning. -/
theorem owlv2_label_index_guard (s : Owlv2) (mo : ModelOut) (img : Img)
    (prompts : List String) (conf : ℚ) :
    ((∃ out, Owlv2.runInference s mo img [prompts] conf = .ok out) ↔
      ∀ d ∈ postProcessObjectDetection (mo s.inferenceDevice img [prompts]) conf,
        d.label < prompts.length) ∧
    ((∃ d ∈ postProcessObjectDetection (mo s.inferenceDevice img [prompts]) conf,
        prompts.length ≤ d.label) →
      Owlv2.runInference s mo img [prompts] conf = .error .indexError) := by
  have hiff : (∃ out, Owlv2.runInference s mo img [prompts] conf = .ok out) ↔
      ∀ d ∈ postProcessObjectDetection (mo s.inferenceDevice img [prompts]) conf,
        d.label < prompts.length := by
    constructor
    · rintro ⟨out, hout⟩ d hd
      exact (mkRecord_singleton_ok prompts d).mp (exceptMapM_ok_forall hout d hd)
    · intro hall
      exact exceptMapM_isOk_of_forall
        (fun d hd => (mkRecord_singleton_ok prompts d).mpr (hall d hd))
  refine ⟨hiff, ?_⟩
  rintro ⟨d, hd, hge⟩
  rcases runInference_cases s mo img [prompts] conf with hok | herr
  · exact absurd (hiff.mp hok d hd) (Nat.not_lt_of_le hge)
  · exact herr

/-- An oracle whose single detection carries the out-of-range label index 5,
used by the C10 witness. -/
def oracleBadLabel : ModelOut :=
  fun _ _ _ => [{ box := [0, 0, 1, 1], score := 1, label := 5 }]

/-- Witness for C10: a decoded label index of 5 against a single prompt makes
the inference step fail with `IndexError`. -/
theorem owlv2_label_index_guard_witness :
    Owlv2.runInference owlv2Zero oracleBadLabel 0 [["a"]] 0 =
      .error .indexError :=
  (owlv2_label_index_guard owlv2Zero oracleBadLabel 0 ["a"] 0).2
    ⟨{ box := [0, 0, 1, 1], score := 1, label := 5 },
      List.mem_filter.mpr ⟨List.mem_singleton.mpr rfl, decide_eq_true (by norm_num)⟩,
      by norm_num⟩

/-- Fueled form of: greedy NMS only keeps elements of its input. -/
theorem nmsKeep_subset_aux (t : ℚ) :
    ∀ (n : ℕ) (l : List Owlv2InferenceData), l.length ≤ n →
      ∀ a ∈ nmsKeep t l, a ∈ l := by
  intro n
  induction n with
  | zero =>
      intro l hl a ha
      cases l with
      | nil => simp [nmsKeep] at ha
      | cons d rest => simp at hl
  | succ n ih =>
      intro l hl a ha
      cases l with
      | nil => simp [nmsKeep] at ha
      | cons d rest =>
          simp only [nmsKeep] at ha
          rcases List.mem_cons.mp ha with rfl | h
          · exact List.mem_cons_self _ _
          · have hlen : (rest.filter fun e => !decide (suppressedBy t d e)).length ≤ n :=
              le_trans (List.length_filter_le _ _) (Nat.succ_le_succ_iff.mp hl)
            exact List.mem_cons_of_mem _
              (List.mem_of_mem_filter (ih _ hlen a h))

/-- Greedy NMS only keeps elements of its input. -/
theorem nmsKeep_subset (t : ℚ) (l : List Owlv2InferenceData) :
    ∀ a ∈ nmsKeep t l, a ∈ l :=
  nmsKeep_subset_aux t l.length l le_rfl

/-- Fueled form of: among the detections kept by greedy NMS, no two of the
same label overlap above the threshold. -/
theorem nmsKeep_pairwise_aux (t : ℚ) :
    ∀ (n : ℕ) (l : List Owlv2InferenceData), l.length ≤ n →
      List.Pairwise (fun a b => a.label = b.label → iouList a.bbox b.bbox ≤ t)
        (nmsKeep t l) := by
  intro n
  induction n with
  | zero =>
      intro l hl
      cases l with
      | nil => simp [nmsKeep]
      | cons d rest => simp at hl
  | succ n ih =>
      intro l hl
      cases l with
      | nil => simp [nmsKeep]
      | cons d rest =>
          simp only [nmsKeep]
          refine List.Pairwise.cons ?_
            (ih _ (le_trans (List.length_filter_le _ _) (Nat.succ_le_succ_iff.mp hl)))
          intro b hb hlab
          have hbf := nmsKeep_subset t _ b hb
          have hns : ¬ suppressedBy t d b := by
            have h2 := (List.mem_filter.mp hbf).2
            simpa using h2
          exact le_of_not_lt (fun hlt => hns ⟨hlab.symm, hlt⟩)

/-- Among the detections kept by greedy NMS, no two of the same label overlap
above the threshold. -/
theorem nmsKeep_pairwise (t : ℚ) (l : List Owlv2InferenceData) :
    List.Pairwise (fun a b => a.label = b.label → iouList a.bbox b.bbox ≤ t)
      (nmsKeep t l) :=
  nmsKeep_pairwise_aux t l.length l le_rfl

/-- Fueled form of: on a score-sorted list, every detection dropped by greedy
NMS is suppressed by some kept detection of the same label with IoU above the
threshold and a score at least as high. -/
theorem nmsKeep_complete_aux (t : ℚ) :
    ∀ (n : ℕ) (l : List Owlv2InferenceData), l.length ≤ n →
      List.Pairwise scoreGE l →
      ∀ b ∈ l, b ∉ nmsKeep t l →
        ∃ a ∈ nmsKeep t l, b.label = a.label ∧ t < iouList a.bbox b.bbox ∧
          b.score ≤ a.score := by
  intro n
  induction n with
  | zero =>
      intro l hl _ b hb _
      cases l with
      | nil => cases hb
      | cons d rest => simp at hl
  | succ n ih =>
      intro n_l hl hsort b hb hnb
      cases n_l with
      | nil => cases hb
      | cons d rest =>
          simp only [nmsKeep] at hnb ⊢
          rcases List.mem_cons.mp hb with rfl | hbrest
          · exact absurd (List.mem_cons_self _ _) hnb
          · by_cases hsup : suppressedBy t d b
            · exact ⟨d, List.mem_cons_self _ _, hsup.1, hsup.2,
                (List.pairwise_cons.mp hsort).1 b hbrest⟩
            · have hbf : b ∈ rest.filter (fun e => !decide (suppressedBy t d e)) :=
                List.mem_filter.mpr ⟨hbrest, by simpa using hsup⟩
              have hnb2 : b ∉ nmsKeep t
                  (rest.filter fun e => !decide (suppressedBy t d e)) :=
                fun hmem => hnb (List.mem_cons_of_mem _ hmem)
              have hsort2 : List.Pairwise scoreGE
                  (rest.filter fun e => !decide (suppressedBy t d e)) :=
                List.Pairwise.sublist (List.filter_sublist _)
                  (List.pairwise_cons.mp hsort).2
              rcases ih _
                  (le_trans (List.length_filter_le _ _) (Nat.succ_le_succ_iff.mp hl))
                  hsort2 b hbf hnb2 with ⟨a, ha, h1, h2, h3⟩
              exact ⟨a, List.mem_cons_of_mem _ ha, h1, h2, h3⟩

/-- On a score-sorted list, every detection dropped by greedy NMS is
suppressed by some kept detection of the same label with IoU above the
threshold and a score at least as high. -/
theorem nmsKeep_complete (t : ℚ) (l : List Owlv2InferenceData)
    (hsort : List.Pairwise scoreGE l) :
    ∀ b ∈ l, b ∉ nmsKeep t l →
      ∃ a ∈ nmsKeep t l, b.label = a.label ∧ t < iouList a.bbox b.bbox ∧
        b.score ≤ a.score :=
  nmsKeep_complete_aux t l.length l le_rfl hsort

/-- C3: the detection tool's post-filter takes an optional NMS threshold.
With no threshold the detections pass through unchanged.  With a threshold,
the output keeps only input detections, no two kept detections of the same
label overlap above the threshold, and every suppressed detection of a given
label overlaps some kept detection of the same label above the threshold whose
score is at least as high — the higher-scoring box is the one kept. -/
theorem nms_suppression (t : ℚ) (dets : List Owlv2InferenceData) :
    applyNms none dets = dets ∧
    (∀ a ∈ applyNms (some t) dets, a ∈ dets) ∧
    List.Pairwise (fun a b => a.label = b.label → iouList a.bbox b.bbox ≤ t)
      (applyNms (some t) dets) ∧
    ∀ b ∈ dets, b ∉ applyNms (some t) dets →
      ∃ a ∈ applyNms (some t) dets, b.label = a.label ∧
        t < iouList a.bbox b.bbox ∧ b.score ≤ a.score := by
  refine ⟨rfl, ?_, nmsKeep_pairwise t _, ?_⟩
  · intro a ha
    exact (List.perm_insertionSort scoreGE dets).mem_iff.mp
      (nmsKeep_subset t _ a ha)
  · intro b hb hnb
    have hbs : b ∈ List.insertionSort scoreGE dets :=
      (List.perm_insertionSort scoreGE dets).mem_iff.mpr hb
    exact nmsKeep_complete t _ (List.sorted_insertionSort scoreGE dets) b hbs hnb

/-- Witness for C3: the no-threshold pass-through at a concrete input. -/
theorem nms_suppression_witness :
    applyNms none [recOne] = [recOne] :=
  (nms_suppression 0 [recOne]).1
